import Mathlib

/-!
Verification of the goes Elasticsearch client (src/goes.go).

Shallow embedding conventions:
* Go byte slices are `List Char` (all payloads in the claims are ASCII).
* Go `interface` values reaching the library are `GoValue`.
* `json.Marshal` output is modelled by `Json.serialize` (Go sorts map keys;
  the claims under verification are independent of key order, so association
  lists are serialized in the order given).
* Characters that the surrounding tooling treats specially are written via
  `Char.ofNat`: 34 is the double quote, 92 the backslash, 123 and 125 the
  curly braces.
-/

namespace Goes

def quoteChar : Char := Char.ofNat 34

def backslashChar : Char := Char.ofNat 92

def lbraceChar : Char := Char.ofNat 123

def rbraceChar : Char := Char.ofNat 125

/-- Decimal digit character, as produced by Go's integer formatting. -/
def digitChar (n : Nat) : Char := Char.ofNat (48 + n)

/-- Lower-case hexadecimal digit, as produced by Go's json `\u00xx` escapes. -/
def hexDigit (n : Nat) : Char := if n < 10 then Char.ofNat (48 + n) else Char.ofNat (87 + n)

/-- Decimal digits of a natural number, most significant first (fuel-driven
accumulator version of Go's strconv formatting). -/
def natCharsAux : Nat → Nat → List Char → List Char
  | 0, _, acc => acc
  | fuel + 1, n, acc =>
    if n < 10 then digitChar n :: acc
    else natCharsAux fuel (n / 10) (digitChar (n % 10) :: acc)

def natChars (n : Nat) : List Char := natCharsAux (n + 1) n []

/-- Integer formatting: optional minus sign followed by decimal digits. -/
def intChars (n : Int) : List Char :=
  if n < 0 then '-' :: natChars ((-n).toNat) else natChars n.toNat

/-- One character of a Go json string, escaped the way `encoding/json` writes
it: quote, backslash and the control characters are escaped, everything else
passes through.  (HTML escaping of angle brackets and the U+2028/U+2029 cases
are irrelevant to every claim and are not modelled.) -/
def escapeChar (c : Char) : List Char :=
  if c = quoteChar then [backslashChar, quoteChar]
  else if c = backslashChar then [backslashChar, backslashChar]
  else if c = '\n' then [backslashChar, 'n']
  else if c = '\r' then [backslashChar, 'r']
  else if c = '\t' then [backslashChar, 't']
  else if c.toNat < 32 then
    [backslashChar, 'u', '0', '0', hexDigit (c.toNat / 16), hexDigit (c.toNat % 16)]
  else [c]

def escChars : List Char → List Char
  | [] => []
  | c :: rest => escapeChar c ++ escChars rest

/-- Bytes of a Go json string literal: quote, escaped characters, quote. -/
def serializeString (s : String) : List Char :=
  quoteChar :: escChars s.data ++ [quoteChar]

/-- Decoded JSON values, the model of Go's `interface` view of a JSON
document (spec section 9: null, bool, number, string, sequence, map). -/
inductive Json where
  | null : Json
  | bool : Bool → Json
  | num : Int → Json
  | str : String → Json
  | arr : List Json → Json
  | obj : List (String × Json) → Json

mutual

/-- Model of `json.Marshal`, producing the byte form of a `Json` value. -/
def Json.serialize : Json → List Char
  | .null => 'n' :: "ull".data
  | .bool true => 't' :: "rue".data
  | .bool false => 'f' :: "alse".data
  | .num n => intChars n
  | .str s => serializeString s
  | .arr xs => '[' :: serializeArr xs ++ [']']
  | .obj fs => lbraceChar :: serializeObj fs ++ [rbraceChar]

def serializeArr : List Json → List Char
  | [] => []
  | [x] => x.serialize
  | x :: y :: rest => x.serialize ++ ',' :: serializeArr (y :: rest)

def serializeObj : List (String × Json) → List Char
  | [] => []
  | [kv] => serializeString kv.1 ++ ':' :: kv.2.serialize
  | kv :: kv2 :: rest => serializeString kv.1 ++ ':' :: kv.2.serialize ++ ',' :: serializeObj (kv2 :: rest)

end

/-- Model of `bytes.Split` with the single-byte separator `\n`. -/
def splitOnNl : List Char → List (List Char)
  | [] => [[]]
  | c :: rest =>
    if c = '\n' then [] :: splitOnNl rest
    else
      match splitOnNl rest with
      | [] => [[c]]
      | s :: ss => (c :: s) :: ss

/-- Model of `bytes.Join` with the single-byte separator `\n`. -/
def joinNl : List (List Char) → List Char
  | [] => []
  | [s] => s
  | s :: t :: rest => s ++ '\n' :: joinNl (t :: rest)

/-- Number of `\n` characters at the very end of a byte string. -/
def trailingNewlines (l : List Char) : Nat :=
  (l.reverse.takeWhile (fun c => c = '\n')).length

/-- Value of one hexadecimal digit character. -/
def hexVal (c : Char) : Option Nat :=
  if 48 ≤ c.toNat ∧ c.toNat ≤ 57 then some (c.toNat - 48)
  else if 97 ≤ c.toNat ∧ c.toNat ≤ 102 then some (c.toNat - 87)
  else if 65 ≤ c.toNat ∧ c.toNat ≤ 70 then some (c.toNat - 55)
  else none

def consFst (c : Char) : Option (List Char × List Char) → Option (List Char × List Char)
  | some (s, r) => some (c :: s, r)
  | none => none

mutual

/-- Body of a json string literal after its opening quote, as Go's decoder
reads it: characters up to the closing quote, resolving escape sequences,
rejecting raw control characters.  Returns the decoded characters and the
input remaining after the closing quote.  (Surrogate pairs are not modelled;
every payload in the claims is ASCII.) -/
def unescape : List Char → Option (List Char × List Char)
  | [] => none
  | c :: rest =>
    if c = quoteChar then some ([], rest)
    else if c = backslashChar then unescapeEsc rest
    else if c.toNat < 32 then none
    else consFst c (unescape rest)

def unescapeEsc : List Char → Option (List Char × List Char)
  | [] => none
  | e :: rest2 =>
    if e = quoteChar then consFst quoteChar (unescape rest2)
    else if e = backslashChar then consFst backslashChar (unescape rest2)
    else if e = '/' then consFst '/' (unescape rest2)
    else if e = 'n' then consFst '\n' (unescape rest2)
    else if e = 'r' then consFst '\r' (unescape rest2)
    else if e = 't' then consFst '\t' (unescape rest2)
    else if e = 'b' then consFst (Char.ofNat 8) (unescape rest2)
    else if e = 'f' then consFst (Char.ofNat 12) (unescape rest2)
    else if e = 'u' then unescapeHex rest2
    else none

def unescapeHex : List Char → Option (List Char × List Char)
  | h1 :: h2 :: h3 :: h4 :: rest3 =>
    match hexVal h1, hexVal h2, hexVal h3, hexVal h4 with
    | some a, some b, some c2, some d =>
      consFst (Char.ofNat (a * 4096 + b * 256 + c2 * 16 + d)) (unescape rest3)
    | _, _, _, _ => none
  | _ => none

end

/-- Model of `json.Unmarshal` of raw bytes into a Go `string` target: the bytes must be
one complete string literal. -/
def unmarshalGoStr (bytes : List Char) : Option (List Char) :=
  match bytes with
  | c :: rest =>
    if c = quoteChar then
      match unescape rest with
      | some (s, []) => some s
      | _ => none
    else none
  | [] => none

def skipWs : List Char → List Char
  | [] => []
  | c :: rest =>
    if c = ' ' ∨ c = '\n' ∨ c = '\t' ∨ c = '\r' then skipWs rest else c :: rest

def parseDigitsAux : List Char → Nat → Nat × List Char
  | [], acc => (acc, [])
  | c :: rest, acc =>
    if 48 ≤ c.toNat ∧ c.toNat ≤ 57 then parseDigitsAux rest (acc * 10 + (c.toNat - 48))
    else (acc, c :: rest)

def parseDigits : List Char → Option (Nat × List Char)
  | [] => none
  | c :: rest =>
    if 48 ≤ c.toNat ∧ c.toNat ≤ 57 then some (parseDigitsAux rest (c.toNat - 48)) else none

mutual

/-- Fuel-driven recursive-descent JSON reader, the model of `json.Unmarshal`
into an untyped value.  The number grammar is restricted to integers — every
payload in the claims is covered, and the claims only ever assume that a
parse succeeded. -/
def parseV : Nat → List Char → Option (Json × List Char)
  | 0, _ => none
  | fuel + 1, l =>
    match skipWs l with
    | [] => none
    | c :: rest =>
      if c = quoteChar then
        match unescape rest with
        | some (s, r) => some (.str (String.mk s), r)
        | none => none
      else if c = lbraceChar then
        match skipWs rest with
        | c2 :: rest2 =>
          if c2 = rbraceChar then some (.obj [], rest2)
          else parseMembers fuel (c2 :: rest2)
        | [] => none
      else if c = '[' then
        match skipWs rest with
        | c2 :: rest2 =>
          if c2 = ']' then some (.arr [], rest2)
          else parseItems fuel (c2 :: rest2)
        | [] => none
      else if c = 't' then
        match rest with
        | 'r' :: 'u' :: 'e' :: r => some (.bool true, r)
        | _ => none
      else if c = 'f' then
        match rest with
        | 'a' :: 'l' :: 's' :: 'e' :: r => some (.bool false, r)
        | _ => none
      else if c = 'n' then
        match rest with
        | 'u' :: 'l' :: 'l' :: r => some (.null, r)
        | _ => none
      else if c = '-' then
        match parseDigits rest with
        | some (k, r) => some (.num (-(k : Int)), r)
        | none => none
      else
        match parseDigits (c :: rest) with
        | some (k, r) => some (.num (k : Int), r)
        | none => none

def parseMembers : Nat → List Char → Option (Json × List Char)
  | 0, _ => none
  | fuel + 1, l =>
    match l with
    | c :: rest =>
      if c = quoteChar then
        match unescape rest with
        | some (k, r) =>
          match skipWs r with
          | c2 :: r2 =>
            if c2 = ':' then
              match parseV fuel r2 with
              | some (v, r3) =>
                match skipWs r3 with
                | c3 :: r4 =>
                  if c3 = ',' then
                    match parseMembers fuel (skipWs r4) with
                    | some (.obj fs, r5) => some (.obj ((String.mk k, v) :: fs), r5)
                    | _ => none
                  else if c3 = rbraceChar then some (.obj [(String.mk k, v)], r4)
                  else none
                | [] => none
              | none => none
            else none
          | [] => none
        | none => none
      else none
    | [] => none

def parseItems : Nat → List Char → Option (Json × List Char)
  | 0, _ => none
  | fuel + 1, l =>
    match parseV fuel l with
    | some (v, r) =>
      match skipWs r with
      | c :: r2 =>
        if c = ',' then
          match parseItems fuel (skipWs r2) with
          | some (.arr xs, r3) => some (.arr (v :: xs), r3)
          | _ => none
        else if c = ']' then some (.arr [v], r2)
        else none
      | [] => none
    | none => none

end

/-- Model of `json.Unmarshal` of a whole body into an untyped value: one JSON value,
optionally surrounded by whitespace, consuming the entire input. -/
def parseJson (l : List Char) : Option Json :=
  match parseV (2 * l.length + 2) l with
  | some (j, r) => if skipWs r = [] then some j else none
  | none => none

/-- A Go `interface` value handed to the library.  `json` wraps any
JSON-serializable value that is not nil and not a string; `unserializable`
stands for any value `json.Marshal` rejects (channels, functions, cycles).
Modelled from the spec: structs.go is absent from src/, so the field shapes
follow spec section 3 together with the type assertions in goes.go. -/
inductive GoValue where
  | nil : GoValue
  | str : String → GoValue
  | json : Json → GoValue
  | unserializable : GoValue

def GoValue.isStr : GoValue → Bool
  | .str _ => true
  | _ => false

/-- Go's single-value type assertion `v.(string)`: a cast failure is the
run-time panic `interface conversion: ...`. -/
def GoValue.assertString : GoValue → Except String String
  | .str s => .ok s
  | .nil => .error "interface conversion: interface is nil, not string"
  | _ => .error "interface conversion: interface is not string"

def marshalGoValue : GoValue → Except String Json
  | .nil => .ok .null
  | .str s => .ok (.str s)
  | .json j => .ok j
  | .unserializable => .error "json: unsupported type"

/-- The dynamic type of `Document.Fields` as goes.go line 172-187 inspects it:
a `map` (Go `map[string]interface` with string keys), a struct, a pointer to
a struct, nil, or any `other` shape (which includes non-struct pointers and
maps with non-string keys). -/
inductive FieldsValue where
  | nil : FieldsValue
  | map : List (String × GoValue) → FieldsValue
  | structVal : List (String × GoValue) → FieldsValue
  | ptrStruct : List (String × GoValue) → FieldsValue
  | other : FieldsValue

/-- Modelled from the spec: structs.go is absent from src/; spec section 3
gives `Document: Index, Type, ID, Fields, BulkCommand`, and goes.go asserts
`Index`/`ID` to `string` at run time, so they are interface-typed. -/
structure Document where
  BulkCommand : String
  Index : GoValue
  ID : GoValue
  Fields : FieldsValue
  DocType : String

def marshalKvs : List (String × GoValue) → Except String (List (String × Json))
  | [] => .ok []
  | (k, v) :: rest => do
    let j ← marshalGoValue v
    let tail ← marshalKvs rest
    .ok ((k, j) :: tail)

/-- Model of `json.Marshal(doc.Fields)` for the shapes that reach line 189: maps and
(pointers to) structs serialize as one JSON object. -/
def marshalFields : FieldsValue → Except String (List Char)
  | .map kvs => do
    let fs ← marshalKvs kvs
    .ok (Json.obj fs).serialize
  | .structVal fs => do
    let fs2 ← marshalKvs fs
    .ok (Json.obj fs2).serialize
  | .ptrStruct fs => do
    let fs2 ← marshalKvs fs
    .ok (Json.obj fs2).serialize
  | .nil => .error "unreachable: nil Fields are never marshalled"
  | .other => .error "unreachable: other Fields fail the kind check first"

/-- The action line of one bulk document (goes.go lines 156-162):
`json.Marshal` of the single-key map from the bulk command to the
`_id`/`_index`/`_type` map (keys in Go's sorted map-key order). -/
def bulkAction (doc : Document) : Except String (List Char) := do
  let idJ ← marshalGoValue doc.ID
  let idxJ ← marshalGoValue doc.Index
  .ok (Json.obj [(doc.BulkCommand,
      Json.obj [("_id", idJ), ("_index", idxJ), ("_type", Json.str doc.DocType)])]).serialize

/-- The lines one document contributes to the bulk body (goes.go lines
155-197): always the action line; also the marshalled Fields when Fields is
a non-empty map or a (pointer to) struct with at least one field — the check
never looks at BulkCommand.  A Fields value of any other non-nil shape is
the construction error of line 182. -/
def bulkDocLines (doc : Document) : Except String (List (List Char)) := do
  let action ← bulkAction doc
  match doc.Fields with
  | .nil => .ok [action]
  | .map kvs =>
    if kvs.length = 0 then .ok [action]
    else do
      let src ← marshalFields (.map kvs)
      .ok [action, src]
  | .structVal fs =>
    if fs.length = 0 then .ok [action]
    else do
      let src ← marshalFields (.structVal fs)
      .ok [action, src]
  | .ptrStruct fs =>
    if fs.length = 0 then .ok [action]
    else do
      let src ← marshalFields (.ptrStruct fs)
      .ok [action, src]
  | .other => .error "Document fields not in struct or map format"

def bulkLines : List Document → Except String (List (List Char))
  | [] => .ok []
  | d :: ds => do
    let l ← bulkDocLines d
    let rest ← bulkLines ds
    .ok (l ++ rest)

/-- The bulk body (goes.go lines 150-205): `bulkData` is allocated with
`2*len(documents)+1` slots, the emitted lines fill a prefix (each document
contributes one or two lines, so at most `2n` slots are filled and the
explicit `bulkData[len-1] = nil` of line 200 re-assigns an always-still-nil
slot), and `bytes.Join(bulkData, "\n")` joins all `2n+1` slots — the unfilled
trailing slots are nil and join as empty segments. -/
def bulkBody (documents : List Document) : Except String (List Char) := do
  let lines ← bulkLines documents
  .ok (joinNl (lines ++ List.replicate (2 * documents.length + 1 - lines.length) []))

/-- Errors flowing out of the pipeline: Go `error` values by provenance.
`band` is the `errors.New(string(body))` of doRequest line 554, `search` is a
`*SearchError` with message and status. -/
inductive GoError where
  | conn : GoError
  | read : GoError
  | band : List Char → GoError
  | decode : GoError
  | construction : String → GoError
  | search : List Char → Nat → GoError
deriving DecidableEq

/-- Outcome of the underlying HTTP round trip (the external Transport
Adapter): connection failure, body-read failure, or a status plus body. -/
inductive Transport where
  | connFailure : Transport
  | readFailure : Nat → Transport
  | ok : Nat → List Char → Transport

/-- Modelled from the spec: structs.go is absent from src/; spec section 6
gives bulk items as single-key maps from command name to
`(status, error, ...)`. -/
structure BulkItem where
  Status : Nat
  Error : List Char
deriving DecidableEq

/-- Modelled from the spec: structs.go is absent from src/; spec section 3
gives `Response: Status (the HTTP status), Raw, Error, Errors, Items, ...`
(pass-through fields not touched by any claim are omitted).  `RawError` is
the raw bytes of the body's `error` field, an intermediate goes.go clears at
line 532. -/
structure Response where
  Status : Nat
  RawError : List Char
  Error : List Char
  Raw : Option Json
  Errors : Bool
  Items : List (List (String × BulkItem))

def Response.empty : Response :=
  { Status := 0, RawError := [], Error := [], Raw := none, Errors := false, Items := [] }

/-- goes.go lines 541-558: relay transport failures, surface any status in
the open band (201, 400) as an error carrying the raw body, pass everything
else through. -/
def doRequest : Transport → List Char × Nat × Option GoError
  | .connFailure => ([], 0, some .conn)
  | .readFailure st => ([], st, some .read)
  | .ok st body =>
    if 201 < st ∧ st < 400 then ([], st, some (.band body)) else (body, st, none)

/-- Field access on a decoded JSON object as Go's decoder fills a struct:
keys are processed in order and a later duplicate overwrites an earlier
one. -/
def goLookup (fs : List (String × Json)) (k : String) : Option Json :=
  fs.foldl (fun acc kv => if kv.1 = k then some kv.2 else acc) none

def decodeBool : Option Json → Option Bool
  | none => some false
  | some .null => some false
  | some (.bool b) => some b
  | some _ => none

def decodeNat : Option Json → Option Nat
  | none => some 0
  | some .null => some 0
  | some (.num n) => if 0 ≤ n then some n.toNat else none
  | some _ => none

def decodeStr : Option Json → Option (List Char)
  | none => some []
  | some .null => some []
  | some (.str s) => some s.data
  | some _ => none

def decodeItem : Json → Option BulkItem
  | .obj kvs => do
    let st ← decodeNat (goLookup kvs "status")
    let er ← decodeStr (goLookup kvs "error")
    some { Status := st, Error := er }
  | .null => some { Status := 0, Error := [] }
  | _ => none

def decodeItemMap : Json → Option (List (String × BulkItem))
  | .obj kvs => kvs.mapM fun kv => (decodeItem kv.2).map fun i => (kv.1, i)
  | .null => some []
  | _ => none

def decodeItems : Option Json → Option (List (List (String × BulkItem)))
  | none => some []
  | some .null => some []
  | some (.arr xs) => xs.mapM decodeItemMap
  | some _ => none

/-- The typed `json.Unmarshal(body, &esResp)` of line 517 restricted to the
fields the pipeline reads: the bulk `errors` flag and `items` list.  `none`
is a decode (type) error. -/
def decodeTyped (fs : List (String × Json)) :
    Option (Bool × List (List (String × BulkItem))) := do
  let errs ← decodeBool (goLookup fs "errors")
  let items ← decodeItems (goLookup fs "items")
  some (errs, items)

/-- Raw bytes of the body's `error` field (`json.RawMessage`); empty when
the field is absent. -/
def rawErrorBytes (fs : List (String × Json)) : List Char :=
  match goLookup fs "error" with
  | none => []
  | some v => v.serialize

/-- goes.go lines 527-531: if the raw error payload is non-empty and starts
with a double quote, `json.Unmarshal` it as a string literal (a failure of
that unmarshal is ignored, leaving the zero value); otherwise the message is
the raw bytes' string form. -/
def unifyError (rawError : List Char) : List Char :=
  match rawError with
  | c :: _ =>
    if c = quoteChar then
      match unmarshalGoStr rawError with
      | some s => s
      | none => []
    else rawError
  | [] => []

/-- goes.go lines 497-539 after the request has been built: run the
transport, decode the body unless the method is HEAD, unify the error
representations, and return a `*SearchError` when the unified error is
non-empty. -/
def DoModel (method : String) (t : Transport) : Response × Option GoError :=
  match doRequest t with
  | (body, status, errOpt) =>
    match errOpt with
    | some e => ({ Response.empty with Status := status }, some e)
    | none =>
      let decoded : Option Response :=
        if method = "HEAD" then some { Response.empty with Status := status }
        else
          match parseJson body with
          | some (Json.obj fs) =>
            match decodeTyped fs with
            | some (errs, items) =>
              some { Status := status, RawError := rawErrorBytes fs, Error := [],
                     Raw := some (Json.obj fs), Errors := errs, Items := items }
            | none => none
          | _ => none
      match decoded with
      | none => ({ Response.empty with Status := status }, some .decode)
      | some resp =>
        let errStr := unifyError resp.RawError
        let resp2 := { resp with Error := errStr, RawError := [] }
        if errStr = [] then (resp2, none) else (resp2, some (.search errStr status))

def firstInItem : List (String × BulkItem) → Option (List Char × Nat)
  | [] => none
  | (_, i) :: rest => if i.Error ≠ [] then some (i.Error, i.Status) else firstInItem rest

def firstItemError : List (List (String × BulkItem)) → Option (List Char × Nat)
  | [] => none
  | item :: rest =>
    match firstInItem item with
    | some r => some r
    | none => firstItemError rest

def unknownBulkMsg : List Char := "Unknown error while bulk indexing".data

/-- goes.go lines 133-225: build the bulk body, send it, then — if the
response's Errors flag is set — surface the first non-empty item error as a
`*SearchError` (or the fallback unknown-error message). -/
def BulkSendModel (documents : List Document) (t : Transport) : Response × Option GoError :=
  match bulkBody documents with
  | .error e => (Response.empty, some (.construction e))
  | .ok _ =>
    match DoModel "POST" t with
    | (resp, some e) => (resp, some e)
    | (resp, none) =>
      if resp.Errors then
        match firstItemError resp.Items with
        | some (msg, st) => (resp, some (.search msg st))
        | none => (resp, some (.search unknownBulkMsg 0))
      else (resp, none)

/-- Modelled from the spec: structs.go is absent from src/; spec section 3
gives the abstract Request fields. -/
structure Request where
  Query : Option GoValue := none
  IndexList : List String := []
  TypeList : List String := []
  Method : String := ""
  API : Option String := none
  ID : Option String := none
  ExtraArgs : List (String × String) := []
  Body : Option (List Char) := none
  BulkData : Option (List Char) := none

/-- goes.go lines 408-413: the request IndicesExist builds. -/
def IndicesExistRequest (indexes : List String) : Request :=
  { IndexList := indexes, Method := "HEAD" }

/-- goes.go lines 408-418: issue the HEAD request and report
`resp.Status == 200` along with the error from Do. -/
def IndicesExistModel (indexes : List String) (t : Transport) : Bool × Option GoError :=
  match DoModel (IndicesExistRequest indexes).Method t with
  | (resp, err) => (resp.Status == 200, err)

/-- goes.go lines 340-350: Delete asserts `d.Index.(string)` and
`d.ID.(string)` unconditionally while building the request. -/
def DeleteRequest (d : Document) : Except String Request := do
  let idx ← d.Index.assertString
  let id ← d.ID.assertString
  .ok { IndexList := [idx], TypeList := [d.DocType], Method := "DELETE", ID := some id }

/-- goes.go lines 421-436: Update asserts `d.Index.(string)`, but asserts
`d.ID.(string)` only under the `d.ID != nil` guard — an absent ID is
tolerated and simply omitted from the request. -/
def UpdateRequest (d : Document) (query : GoValue) : Except String Request := do
  let idx ← d.Index.assertString
  let r : Request := { Query := some query, IndexList := [idx], TypeList := [d.DocType],
                       Method := "POST", API := some "_update" }
  match d.ID with
  | .nil => .ok r
  | v => do
    let id ← v.assertString
    .ok { r with ID := some id }

def DeleteOp (d : Document) (t : Transport) : Except String (Response × Option GoError) := do
  let r ← DeleteRequest d
  .ok (DoModel r.Method t)

def UpdateOp (d : Document) (query : GoValue) (t : Transport) :
    Except String (Response × Option GoError) := do
  let r ← UpdateRequest d query
  .ok (DoModel r.Method t)

/-- goes.go lines 450-462: the `actions` slice starts as
`make([]map[string]interface, 1)` — one nil map — and one add/remove entry
per index is appended in order.  `none` is the leading nil map. -/
def modifyAliasActions (action : String) (als : String) (indexes : List String) :
    List (Option (List (String × Json))) :=
  indexes.foldl
    (fun acc index =>
      acc ++ [some [(action, Json.obj [("index", Json.str index), ("alias", Json.str als)])]])
    [none]

def AddAliasActions (als : String) (indexes : List String) :
    List (Option (List (String × Json))) :=
  modifyAliasActions "add" als indexes

def RemoveAliasActions (als : String) (indexes : List String) :
    List (Option (List (String × Json))) :=
  modifyAliasActions "remove" als indexes

/-- Model of `type Aggregation map[string]interface` over decoded JSON. -/
abbrev Aggregation : Type := List (String × Json)

/-- Model of `type Bucket map[string]interface` over decoded JSON. -/
abbrev Bucket : Type := List (String × Json)

def bucketsOf : List Json → Except String (List Bucket)
  | [] => .ok []
  | Json.obj kvs :: rest => do
    let tail ← bucketsOf rest
    .ok (kvs :: tail)
  | _ :: _ => .error "interface conversion: bucket is not a map"

/-- goes.go lines 353-362: `a[\x22buckets\x22]` absent gives the empty list;
when present, the value is cast to a slice and every element to a map —
either cast failing is a run-time panic, modelled as `Except.error`. -/
def Aggregation.Buckets (a : Aggregation) : Except String (List Bucket) :=
  match goLookup a "buckets" with
  | none => .ok []
  | some (Json.arr xs) => bucketsOf xs
  | some _ => .error "interface conversion: buckets value is not a slice"

/-- goes.go lines 375-380: the value at `name` is cast to a map when the key
is present (a non-map value is a run-time panic); an absent key gives the
empty Aggregation. -/
def Bucket.Aggregation (b : Bucket) (name : String) : Except String Aggregation :=
  match goLookup b name with
  | some (Json.obj kvs) => .ok kvs
  | some _ => .error "interface conversion: aggregation value is not a map"
  | none => .ok []

/-- Whether goes.go lines 171-196 emit a source line for this document:
Fields is a non-empty map or a (pointer to) struct with at least one field —
independently of the document's BulkCommand. -/
def emitsSource (d : Document) : Bool :=
  match d.Fields with
  | .map kvs => !(kvs.length = 0)
  | .structVal fs => !(fs.length = 0)
  | .ptrStruct fs => !(fs.length = 0)
  | .nil => false
  | .other => false

def docLineCount (d : Document) : Nat := if emitsSource d then 2 else 1

theorem splitOnNl_ne_nil (l : List Char) : splitOnNl l ≠ [] := by
  induction l with
  | nil => simp [splitOnNl]
  | cons c rest ih =>
    simp only [splitOnNl]
    split
    · simp
    · split
      · simp
      · simp

theorem splitOnNl_of_no_nl (s : List Char) (h : '\n' ∉ s) : splitOnNl s = [s] := by
  induction s with
  | nil => rfl
  | cons c rest ih =>
    simp only [List.mem_cons, not_or] at h
    simp only [splitOnNl]
    rw [if_neg (fun hc => h.1 hc.symm), ih h.2]

theorem splitOnNl_append_nl (s t : List Char) (h : '\n' ∉ s) :
    splitOnNl (s ++ '\n' :: t) = s :: splitOnNl t := by
  induction s with
  | nil => simp [splitOnNl]
  | cons c rest ih =>
    simp only [List.mem_cons, not_or] at h
    have heq : (c :: rest) ++ '\n' :: t = c :: (rest ++ '\n' :: t) := rfl
    rw [heq]
    simp only [splitOnNl]
    rw [if_neg (fun hc => h.1 hc.symm), ih h.2]

theorem joinNl_cons_of_ne_nil (s : List Char) (l : List (List Char)) (h : l ≠ []) :
    joinNl (s :: l) = s ++ '\n' :: joinNl l := by
  cases l with
  | nil => exact absurd rfl h
  | cons t rest => rfl

/-- Splitting is a left inverse of joining when no segment contains the
separator. -/
theorem splitOnNl_joinNl (segs : List (List Char)) (hne : segs ≠ [])
    (h : ∀ s ∈ segs, '\n' ∉ s) : splitOnNl (joinNl segs) = segs := by
  induction segs with
  | nil => exact absurd rfl hne
  | cons s rest ih =>
    cases rest with
    | nil => exact splitOnNl_of_no_nl s (h s (by simp))
    | cons t rest2 =>
      rw [joinNl_cons_of_ne_nil s (t :: rest2) (by simp)]
      rw [splitOnNl_append_nl _ _ (h s (by simp))]
      rw [ih (by simp) (fun x hx => h x (by simp [hx]))]

theorem joinNl_replicate_nil (k : Nat) : joinNl (List.replicate (k + 1) []) = List.replicate k '\n' := by
  induction k with
  | zero => rfl
  | succ k ih =>
    rw [List.replicate_succ, joinNl_cons_of_ne_nil _ _ (by simp [List.replicate]),
      ih, List.nil_append, List.replicate_succ]

theorem joinNl_append_replicate (ls : List (List Char)) (k : Nat) (h : ls ≠ []) :
    joinNl (ls ++ List.replicate k []) = joinNl ls ++ List.replicate k '\n' := by
  induction ls with
  | nil => exact absurd rfl h
  | cons s rest ih =>
    cases rest with
    | nil =>
      cases k with
      | zero => simp [joinNl]
      | succ k =>
        rw [List.singleton_append, joinNl_cons_of_ne_nil _ _ (by simp [List.replicate]),
          joinNl_replicate_nil, joinNl, List.replicate_succ]
    | cons t rest2 =>
      rw [List.cons_append, joinNl_cons_of_ne_nil _ _ (by simp),
        joinNl_cons_of_ne_nil _ _ (by simp), ih (by simp), List.append_assoc]
      simp

theorem takeWhile_nl_replicate_append (k : Nat) (t : List Char) :
    (List.replicate k '\n' ++ t).takeWhile (fun c => c = '\n') =
      List.replicate k '\n' ++ t.takeWhile (fun c => c = '\n') := by
  induction k with
  | zero => simp
  | succ k ih => simp [List.replicate_succ, List.takeWhile_cons, ih]

theorem trailingNewlines_append_replicate (a : List Char) (k : Nat) (c : Char)
    (hc : c ≠ '\n') (h : a.getLast? = some c) :
    trailingNewlines (a ++ List.replicate k '\n') = k := by
  unfold trailingNewlines
  rw [List.reverse_append, List.reverse_replicate, takeWhile_nl_replicate_append]
  have hrev : a.reverse.head? = some c := by rw [List.head?_reverse, h]
  obtain ⟨rest, hr⟩ : ∃ rest, a.reverse = c :: rest := by
    cases har : a.reverse with
    | nil => rw [har] at hrev; cases hrev
    | cons x xs =>
      rw [har] at hrev
      simp only [List.head?_cons, Option.some_inj] at hrev
      exact ⟨xs, by rw [hrev]⟩
  rw [hr]
  simp [List.takeWhile_cons, hc]

theorem joinNl_getLast? (ls : List (List Char)) (s : List Char) (c : Char)
    (h : s.getLast? = some c) : (joinNl (ls ++ [s])).getLast? = some c := by
  induction ls with
  | nil => simpa [joinNl] using h
  | cons a rest ih =>
    rw [List.cons_append, joinNl_cons_of_ne_nil _ _ (by simp)]
    rw [List.getLast?_append_cons]
    have hy : joinNl (rest ++ [s]) ≠ [] := by
      intro hnil
      rw [hnil] at ih
      simp at ih
    calc ('\n' :: joinNl (rest ++ [s])).getLast?
        = (['\n'] ++ joinNl (rest ++ [s])).getLast? := rfl
      _ = (joinNl (rest ++ [s])).getLast? := List.getLast?_append_of_ne_nil _ hy
      _ = some c := ih

theorem digitChar_ne_nl (n : Nat) (h : n < 10) : digitChar n ≠ '\n' := by
  interval_cases n <;> decide

theorem digitChar_ne_quote (n : Nat) (h : n < 10) : digitChar n ≠ quoteChar := by
  interval_cases n <;> decide

theorem hexDigit_ne_nl (n : Nat) (h : n < 16) : hexDigit n ≠ '\n' := by
  interval_cases n <;> decide

theorem no_nl_cons {c : Char} {l : List Char} (hc : c ≠ '\n') (hl : '\n' ∉ l) :
    '\n' ∉ c :: l := by
  intro h
  rcases List.mem_cons.mp h with h | h
  · exact hc h.symm
  · exact hl h

theorem no_nl_append {a b : List Char} (ha : '\n' ∉ a) (hb : '\n' ∉ b) :
    '\n' ∉ a ++ b := by
  intro h
  rcases List.mem_append.mp h with h | h
  · exact ha h
  · exact hb h

theorem escapeChar_no_nl (c : Char) : '\n' ∉ escapeChar c := by
  unfold escapeChar
  split_ifs with h1 h2 h3 h4 h5 h6
  · decide
  · decide
  · decide
  · decide
  · decide
  · exact no_nl_cons (by decide) (no_nl_cons (by decide) (no_nl_cons (by decide)
      (no_nl_cons (by decide) (no_nl_cons (hexDigit_ne_nl _ (by omega))
        (no_nl_cons (hexDigit_ne_nl _ (by omega)) (by simp))))))
  · exact no_nl_cons h3 (by simp)

theorem escChars_no_nl (l : List Char) : '\n' ∉ escChars l := by
  induction l with
  | nil => simp [escChars]
  | cons c rest ih => exact no_nl_append (escapeChar_no_nl c) ih

theorem serializeString_no_nl (s : String) : '\n' ∉ serializeString s :=
  no_nl_cons (by decide) (no_nl_append (escChars_no_nl s.data) (no_nl_cons (by decide) (by simp)))

theorem natCharsAux_no_nl (fuel : Nat) :
    ∀ (n : Nat) (acc : List Char), '\n' ∉ acc → '\n' ∉ natCharsAux fuel n acc := by
  induction fuel with
  | zero => intro n acc hacc; simpa [natCharsAux] using hacc
  | succ fuel ih =>
    intro n acc hacc
    simp only [natCharsAux]
    split
    · intro hmem
      rcases List.mem_cons.mp hmem with h | h
      · exact digitChar_ne_nl n (by omega) h.symm
      · exact hacc h
    · refine ih (n / 10) _ ?_
      intro hmem
      rcases List.mem_cons.mp hmem with h | h
      · exact digitChar_ne_nl (n % 10) (by omega) h.symm
      · exact hacc h

theorem intChars_no_nl (n : Int) : '\n' ∉ intChars n := by
  unfold intChars
  split
  · intro hmem
    rcases List.mem_cons.mp hmem with h | h
    · exact absurd h (by decide)
    · exact natCharsAux_no_nl _ _ _ (by simp) h
  · exact natCharsAux_no_nl _ _ _ (by simp)

mutual

theorem serialize_no_nl : (j : Json) → '\n' ∉ j.serialize
  | .null => by decide
  | .bool true => by decide
  | .bool false => by decide
  | .num n => intChars_no_nl n
  | .str s => serializeString_no_nl s
  | .arr xs => by
    simp only [Json.serialize]
    exact no_nl_cons (by decide)
      (no_nl_append (serializeArr_no_nl xs) (no_nl_cons (by decide) (by simp)))
  | .obj fs => by
    simp only [Json.serialize]
    exact no_nl_cons (by decide)
      (no_nl_append (serializeObj_no_nl fs) (no_nl_cons (by decide) (by simp)))

theorem serializeArr_no_nl : (xs : List Json) → '\n' ∉ serializeArr xs
  | [] => by simp [serializeArr]
  | [x] => by
    simp only [serializeArr]
    exact serialize_no_nl x
  | x :: y :: rest => by
    simp only [serializeArr]
    exact no_nl_append (serialize_no_nl x)
      (no_nl_cons (by decide) (serializeArr_no_nl (y :: rest)))

theorem serializeObj_no_nl : (fs : List (String × Json)) → '\n' ∉ serializeObj fs
  | [] => by simp [serializeObj]
  | [kv] => by
    simp only [serializeObj]
    exact no_nl_append (serializeString_no_nl kv.1)
      (no_nl_cons (by decide) (serialize_no_nl kv.2))
  | kv :: kv2 :: rest => by
    simp only [serializeObj]
    exact no_nl_append
      (no_nl_append (serializeString_no_nl kv.1)
        (no_nl_cons (by decide) (serialize_no_nl kv.2)))
      (no_nl_cons (by decide) (serializeObj_no_nl (kv2 :: rest)))

end

theorem natCharsAux_head (fuel : Nat) :
    ∀ (n : Nat) (acc : List Char), ∃ k t, k < 10 ∧ natCharsAux (fuel + 1) n acc = digitChar k :: t := by
  induction fuel with
  | zero =>
    intro n acc
    simp only [natCharsAux]
    split
    · exact ⟨n, acc, by omega, rfl⟩
    · exact ⟨n % 10, acc, by omega, rfl⟩
  | succ fuel ih =>
    intro n acc
    simp only [natCharsAux]
    split
    · exact ⟨n, acc, by omega, rfl⟩
    · exact ih (n / 10) (digitChar (n % 10) :: acc)

/-- The first byte of a serialized non-string JSON value is never a double
quote (lines 527-531 of goes.go dispatch on that byte). -/
theorem serialize_head_ne_quote (j : Json) (hstr : ∀ s, j ≠ .str s) :
    ∃ c t, j.serialize = c :: t ∧ c ≠ quoteChar := by
  cases j with
  | null => exact ⟨'n', _, rfl, by decide⟩
  | bool b => cases b with
    | true => exact ⟨'t', _, rfl, by decide⟩
    | false => exact ⟨'f', _, rfl, by decide⟩
  | num n =>
    show ∃ c t, intChars n = c :: t ∧ c ≠ quoteChar
    unfold intChars
    split
    · exact ⟨'-', _, rfl, by decide⟩
    · obtain ⟨k, t, hk, ht⟩ := natCharsAux_head n.toNat n.toNat []
      exact ⟨digitChar k, t, ht, digitChar_ne_quote k hk⟩
  | str s => exact absurd rfl (hstr s)
  | arr xs => exact ⟨'[', _, rfl, by decide⟩
  | obj fs => exact ⟨lbraceChar, _, rfl, by decide⟩

theorem serialize_str_head (s : String) :
    (Json.str s).serialize = quoteChar :: (escChars s.data ++ [quoteChar]) := rfl

theorem serialize_ne_nil (j : Json) : j.serialize ≠ [] := by
  cases j with
  | num n =>
    show intChars n ≠ []
    unfold intChars
    split
    · simp
    · obtain ⟨k, t, _, ht⟩ := natCharsAux_head n.toNat n.toNat []
      simp [natChars, ht]
  | null => simp [Json.serialize]
  | bool b => cases b <;> simp [Json.serialize]
  | str s => simp [Json.serialize, serializeString]
  | arr xs => simp [Json.serialize]
  | obj fs => simp [Json.serialize]

/-- A serialized object ends with a closing brace. -/
theorem serialize_obj_getLast (fs : List (String × Json)) :
    (Json.obj fs).serialize.getLast? = some rbraceChar := by
  show (lbraceChar :: serializeObj fs ++ [rbraceChar]).getLast? = some rbraceChar
  rw [List.getLast?_append_cons]
  rfl

theorem hexVal_hexDigit (n : Nat) (h : n < 16) : hexVal (hexDigit n) = some n := by
  interval_cases n <;> decide

theorem unescape_cons (c : Char) (rest : List Char) :
    unescape (c :: rest) =
      (if c = quoteChar then some ([], rest)
       else if c = backslashChar then unescapeEsc rest
       else if c.toNat < 32 then none
       else consFst c (unescape rest)) := by
  rw [unescape]

theorem unescapeEsc_cons (e : Char) (rest2 : List Char) :
    unescapeEsc (e :: rest2) =
      (if e = quoteChar then consFst quoteChar (unescape rest2)
       else if e = backslashChar then consFst backslashChar (unescape rest2)
       else if e = '/' then consFst '/' (unescape rest2)
       else if e = 'n' then consFst '\n' (unescape rest2)
       else if e = 'r' then consFst '\r' (unescape rest2)
       else if e = 't' then consFst '\t' (unescape rest2)
       else if e = 'b' then consFst (Char.ofNat 8) (unescape rest2)
       else if e = 'f' then consFst (Char.ofNat 12) (unescape rest2)
       else if e = 'u' then unescapeHex rest2
       else none) := by
  rw [unescapeEsc]

/-- Decoding consumes exactly the escape of one character. -/
theorem unescape_escapeChar (c : Char) (t : List Char) :
    unescape (escapeChar c ++ t) = consFst c (unescape t) := by
  unfold escapeChar
  split_ifs with h1 h2 h3 h4 h5 h6
  · rw [List.cons_append, List.cons_append, List.nil_append, unescape_cons,
      if_neg (by decide), if_pos rfl, unescapeEsc_cons, if_pos rfl, h1]
  · rw [List.cons_append, List.cons_append, List.nil_append, unescape_cons,
      if_neg (by decide), if_pos rfl, unescapeEsc_cons, if_neg (by decide), if_pos rfl, h2]
  · rw [List.cons_append, List.cons_append, List.nil_append, unescape_cons,
      if_neg (by decide), if_pos rfl, unescapeEsc_cons, if_neg (by decide),
      if_neg (by decide), if_neg (by decide), if_pos rfl, h3]
  · rw [List.cons_append, List.cons_append, List.nil_append, unescape_cons,
      if_neg (by decide), if_pos rfl, unescapeEsc_cons, if_neg (by decide),
      if_neg (by decide), if_neg (by decide), if_neg (by decide), if_pos rfl, h4]
  · rw [List.cons_append, List.cons_append, List.nil_append, unescape_cons,
      if_neg (by decide), if_pos rfl, unescapeEsc_cons, if_neg (by decide),
      if_neg (by decide), if_neg (by decide), if_neg (by decide), if_neg (by decide),
      if_pos rfl, h5]
  · have hdiv : c.toNat / 16 < 16 := by omega
    have hmod : c.toNat % 16 < 16 := by omega
    rw [show ([backslashChar, 'u', '0', '0', hexDigit (c.toNat / 16), hexDigit (c.toNat % 16)] ++ t)
        = backslashChar :: 'u' :: '0' :: '0' :: hexDigit (c.toNat / 16) :: hexDigit (c.toNat % 16) :: t from rfl]
    rw [unescape_cons, if_neg (by decide), if_pos rfl, unescapeEsc_cons]
    rw [if_neg (by decide), if_neg (by decide), if_neg (by decide), if_neg (by decide),
      if_neg (by decide), if_neg (by decide), if_neg (by decide), if_neg (by decide),
      if_pos rfl]
    rw [unescapeHex]
    rw [show hexVal '0' = some 0 from by decide, hexVal_hexDigit _ hdiv, hexVal_hexDigit _ hmod]
    have harith : 0 * 4096 + 0 * 256 + c.toNat / 16 * 16 + c.toNat % 16 = c.toNat := by omega
    simp only [harith, Char.ofNat_toNat]
  · rw [List.cons_append, List.nil_append, unescape_cons, if_neg h1, if_neg h2, if_neg h6]

theorem unescape_escChars (l : List Char) (rest : List Char) :
    unescape (escChars l ++ quoteChar :: rest) = some (l, rest) := by
  induction l with
  | nil =>
    rw [show escChars [] ++ quoteChar :: rest = quoteChar :: rest from rfl,
      unescape_cons, if_pos rfl]
  | cons c l ih =>
    show unescape ((escapeChar c ++ escChars l) ++ quoteChar :: rest) = some (c :: l, rest)
    rw [List.append_assoc, unescape_escapeChar, ih]
    rfl

/-- Decoding via `json.Unmarshal` into a string is a left inverse of `json.Marshal` of a
string: the decoded literal is the original character data. -/
theorem unmarshal_serializeString (s : String) :
    unmarshalGoStr (serializeString s) = some s.data := by
  show unmarshalGoStr (quoteChar :: (escChars s.data ++ [quoteChar])) = some s.data
  rw [show (escChars s.data ++ [quoteChar]) = escChars s.data ++ quoteChar :: [] from rfl]
  simp [unmarshalGoStr, unescape_escChars]

theorem except_bind_ok {ε α β : Type} (a : α) (f : α → Except ε β) :
    (Except.ok a >>= f) = f a := rfl

theorem except_bind_error {ε α β : Type} (e : ε) (f : α → Except ε β) :
    ((Except.error e : Except ε α) >>= f) = Except.error e := rfl

theorem bulkAction_ok (d : Document) (a : List Char) (h : bulkAction d = .ok a) :
    ∃ fs, a = (Json.obj fs).serialize := by
  unfold bulkAction at h
  cases hID : marshalGoValue d.ID with
  | error e =>
    simp only [hID, except_bind_error] at h
    exact Except.noConfusion h
  | ok idJ =>
    cases hIx : marshalGoValue d.Index with
    | error e =>
      simp only [hID, hIx, except_bind_ok, except_bind_error] at h
      exact Except.noConfusion h
    | ok idxJ =>
      simp only [hID, hIx, except_bind_ok] at h
      exact ⟨_, (Except.ok.injEq _ _ |>.mp h).symm⟩

theorem marshalFields_ok (fv : FieldsValue) (s : List Char) (h : marshalFields fv = .ok s) :
    ∃ fs, s = (Json.obj fs).serialize := by
  cases fv with
  | nil => simp [marshalFields] at h
  | other => simp [marshalFields] at h
  | map kvs =>
    unfold marshalFields at h
    cases hm : marshalKvs kvs with
    | error e =>
      simp only [hm, except_bind_error] at h
      exact Except.noConfusion h
    | ok fs =>
      simp only [hm, except_bind_ok] at h
      exact ⟨fs, (Except.ok.injEq _ _ |>.mp h).symm⟩
  | structVal fs0 =>
    unfold marshalFields at h
    cases hm : marshalKvs fs0 with
    | error e =>
      simp only [hm, except_bind_error] at h
      exact Except.noConfusion h
    | ok fs =>
      simp only [hm, except_bind_ok] at h
      exact ⟨fs, (Except.ok.injEq _ _ |>.mp h).symm⟩
  | ptrStruct fs0 =>
    unfold marshalFields at h
    cases hm : marshalKvs fs0 with
    | error e =>
      simp only [hm, except_bind_error] at h
      exact Except.noConfusion h
    | ok fs =>
      simp only [hm, except_bind_ok] at h
      exact ⟨fs, (Except.ok.injEq _ _ |>.mp h).symm⟩

theorem bulkDocLines_ok (d : Document) (l : List (List Char)) (h : bulkDocLines d = .ok l) :
    l.length = docLineCount d ∧ ∀ x ∈ l, ∃ fs, x = (Json.obj fs).serialize := by
  unfold bulkDocLines at h
  cases ha : bulkAction d with
  | error e =>
    simp only [ha, except_bind_error] at h
    exact Except.noConfusion h
  | ok a =>
    obtain ⟨afs, hafs⟩ := bulkAction_ok d a ha
    simp only [ha, except_bind_ok] at h
    unfold docLineCount emitsSource
    cases hf : d.Fields with
    | nil =>
      simp only [hf] at h
      obtain rfl := (Except.ok.injEq _ _ |>.mp h).symm
      refine ⟨rfl, ?_⟩
      intro x hx
      rw [List.mem_singleton] at hx
      exact ⟨afs, hx ▸ hafs⟩
    | other =>
      simp only [hf] at h
      exact Except.noConfusion h
    | map kvs =>
      simp only [hf] at h
      by_cases hk : kvs.length = 0
      · rw [if_pos hk] at h
        obtain rfl := (Except.ok.injEq _ _ |>.mp h).symm
        refine ⟨by simp [hk], ?_⟩
        intro x hx
        rw [List.mem_singleton] at hx
        exact ⟨afs, hx ▸ hafs⟩
      · rw [if_neg hk] at h
        cases hs : marshalFields (.map kvs) with
        | error e =>
          simp only [hs, except_bind_error] at h
          exact Except.noConfusion h
        | ok src =>
          obtain ⟨sfs, hsfs⟩ := marshalFields_ok _ src hs
          simp only [hs, except_bind_ok] at h
          obtain rfl := (Except.ok.injEq _ _ |>.mp h).symm
          refine ⟨by simp [hk], ?_⟩
          intro x hx
          rcases List.mem_cons.mp hx with rfl | hx
          · exact ⟨afs, hafs⟩
          · rw [List.mem_singleton] at hx
            exact ⟨sfs, hx ▸ hsfs⟩
    | structVal fs0 =>
      simp only [hf] at h
      by_cases hk : fs0.length = 0
      · rw [if_pos hk] at h
        obtain rfl := (Except.ok.injEq _ _ |>.mp h).symm
        refine ⟨by simp [hk], ?_⟩
        intro x hx
        rw [List.mem_singleton] at hx
        exact ⟨afs, hx ▸ hafs⟩
      · rw [if_neg hk] at h
        cases hs : marshalFields (.structVal fs0) with
        | error e =>
          simp only [hs, except_bind_error] at h
          exact Except.noConfusion h
        | ok src =>
          obtain ⟨sfs, hsfs⟩ := marshalFields_ok _ src hs
          simp only [hs, except_bind_ok] at h
          obtain rfl := (Except.ok.injEq _ _ |>.mp h).symm
          refine ⟨by simp [hk], ?_⟩
          intro x hx
          rcases List.mem_cons.mp hx with rfl | hx
          · exact ⟨afs, hafs⟩
          · rw [List.mem_singleton] at hx
            exact ⟨sfs, hx ▸ hsfs⟩
    | ptrStruct fs0 =>
      simp only [hf] at h
      by_cases hk : fs0.length = 0
      · rw [if_pos hk] at h
        obtain rfl := (Except.ok.injEq _ _ |>.mp h).symm
        refine ⟨by simp [hk], ?_⟩
        intro x hx
        rw [List.mem_singleton] at hx
        exact ⟨afs, hx ▸ hafs⟩
      · rw [if_neg hk] at h
        cases hs : marshalFields (.ptrStruct fs0) with
        | error e =>
          simp only [hs, except_bind_error] at h
          exact Except.noConfusion h
        | ok src =>
          obtain ⟨sfs, hsfs⟩ := marshalFields_ok _ src hs
          simp only [hs, except_bind_ok] at h
          obtain rfl := (Except.ok.injEq _ _ |>.mp h).symm
          refine ⟨by simp [hk], ?_⟩
          intro x hx
          rcases List.mem_cons.mp hx with rfl | hx
          · exact ⟨afs, hafs⟩
          · rw [List.mem_singleton] at hx
            exact ⟨sfs, hx ▸ hsfs⟩

theorem bulkLines_ok (docs : List Document) (ls : List (List Char))
    (h : bulkLines docs = .ok ls) :
    ls.length = (docs.map docLineCount).sum ∧
      ∀ x ∈ ls, ∃ fs, x = (Json.obj fs).serialize := by
  induction docs generalizing ls with
  | nil =>
    simp only [bulkLines] at h
    obtain rfl := (Except.ok.injEq _ _ |>.mp h).symm
    exact ⟨rfl, by simp⟩
  | cons d ds ih =>
    simp only [bulkLines] at h
    cases hd : bulkDocLines d with
    | error e =>
      simp only [hd, except_bind_error] at h
      exact Except.noConfusion h
    | ok l =>
      simp only [hd, except_bind_ok] at h
      cases hrest : bulkLines ds with
      | error e =>
        simp only [hrest, except_bind_error] at h
        exact Except.noConfusion h
      | ok rest =>
        simp only [hrest, except_bind_ok] at h
        obtain rfl := (Except.ok.injEq _ _ |>.mp h).symm
        obtain ⟨hlen, hshape⟩ := bulkDocLines_ok d l hd
        obtain ⟨hlen2, hshape2⟩ := ih rest hrest
        refine ⟨by simp [hlen, hlen2], ?_⟩
        intro x hx
        rcases List.mem_append.mp hx with hx | hx
        · exact hshape x hx
        · exact hshape2 x hx

theorem docLineCount_ge_one (d : Document) : 1 ≤ docLineCount d := by
  unfold docLineCount
  split <;> omega

theorem docLineCount_le_two (d : Document) : docLineCount d ≤ 2 := by
  unfold docLineCount
  split <;> omega

theorem lineCountSum_le (docs : List Document) :
    (docs.map docLineCount).sum ≤ 2 * docs.length := by
  induction docs with
  | nil => simp
  | cons d ds ih =>
    simp only [List.map_cons, List.sum_cons, List.length_cons]
    have := docLineCount_le_two d
    omega

theorem lineCountSum_ge (docs : List Document) :
    docs.length ≤ (docs.map docLineCount).sum := by
  induction docs with
  | nil => simp
  | cons d ds ih =>
    simp only [List.map_cons, List.sum_cons, List.length_cons]
    have := docLineCount_ge_one d
    omega

theorem bulkBody_eq (docs : List Document) (ls : List (List Char))
    (h : bulkLines docs = .ok ls) :
    bulkBody docs =
      .ok (joinNl (ls ++ List.replicate (2 * docs.length + 1 - ls.length) [])) := by
  unfold bulkBody
  simp only [h, except_bind_ok]

/-- Structure of the bulk body: splitting it on newlines recovers the emitted
lines followed by the `2n+1 - L` empty segments of the unfilled slots, and —
for a non-empty document list — the body ends in exactly that many
newlines. -/
theorem bulkBody_split (docs : List Document) (ls : List (List Char)) (s : List Char)
    (hl : bulkLines docs = .ok ls) (hb : bulkBody docs = .ok s) :
    splitOnNl s = ls ++ List.replicate (2 * docs.length + 1 - ls.length) []
    ∧ ls.length ≤ 2 * docs.length
    ∧ (docs ≠ [] →
        trailingNewlines s = 2 * docs.length + 1 - ls.length) := by
  obtain ⟨hlen, hshape⟩ := bulkLines_ok docs ls hl
  have hle : ls.length ≤ 2 * docs.length := hlen ▸ lineCountSum_le docs
  have hs : s = joinNl (ls ++ List.replicate (2 * docs.length + 1 - ls.length) []) := by
    have := bulkBody_eq docs ls hl
    rw [hb] at this
    exact Except.ok.injEq _ _ |>.mp this.symm |>.symm
  have hnoNl : ∀ x ∈ ls ++ List.replicate (2 * docs.length + 1 - ls.length) [], '\n' ∉ x := by
    intro x hx
    rcases List.mem_append.mp hx with hx | hx
    · obtain ⟨fs, rfl⟩ := hshape x hx
      exact serialize_no_nl _
    · rw [List.eq_of_mem_replicate hx]
      simp
  refine ⟨?_, hle, ?_⟩
  · rw [hs]
    refine splitOnNl_joinNl _ ?_ hnoNl
    have : 1 ≤ 2 * docs.length + 1 - ls.length := by omega
    intro hcon
    rcases List.append_eq_nil.mp hcon with ⟨-, h2⟩
    rw [List.replicate_eq_nil_iff] at h2
    omega
  · intro hne
    have hlsne : ls ≠ [] := by
      have h1 : docs.length ≤ ls.length := hlen ▸ lineCountSum_ge docs
      intro hcon
      rw [hcon] at h1
      simp at h1
      exact hne h1
    rw [hs, joinNl_append_replicate ls _ hlsne]
    have hlast : (joinNl ls).getLast? = some rbraceChar := by
      obtain ⟨fs, hfs⟩ := hshape (ls.getLast hlsne) (List.getLast_mem hlsne)
      have hdrop : ls.dropLast ++ [ls.getLast hlsne] = ls := List.dropLast_append_getLast hlsne
      rw [← hdrop]
      rw [joinNl_getLast? ls.dropLast (ls.getLast hlsne) rbraceChar (by rw [hfs]; exact serialize_obj_getLast fs)]
    exact trailingNewlines_append_replicate (joinNl ls) _ rbraceChar (by decide) hlast

/-- C1 (amended): for every document list whose bulk build succeeds, the body
is the emitted lines joined by single `\n` separators followed by
`2n + 1 - L` empty segments, so a non-empty document list yields a body
ending in exactly `2n + 1 - L` trailing newlines (`n` documents, `L` emitted
lines).  This is exactly one trailing newline precisely when every document
emits a source line (`L = 2n`); a document that omits its source line (a
delete, or empty/absent Fields) leaves extra trailing newlines. -/
theorem goes_C1_amended (docs : List Document) (ls : List (List Char)) (s : List Char)
    (hl : bulkLines docs = .ok ls) (hb : bulkBody docs = .ok s) :
    splitOnNl s = ls ++ List.replicate (2 * docs.length + 1 - ls.length) []
    ∧ (docs ≠ [] → 1 ≤ trailingNewlines s)
    ∧ (docs ≠ [] → trailingNewlines s = 2 * docs.length + 1 - ls.length)
    ∧ (docs ≠ [] → ls.length = 2 * docs.length → trailingNewlines s = 1) := by
  obtain ⟨hsplit, hle, htrail⟩ := bulkBody_split docs ls s hl hb
  refine ⟨hsplit, ?_, htrail, ?_⟩
  · intro hne
    rw [htrail hne]
    omega
  · intro hne hL
    rw [htrail hne, hL]
    omega

/-- C1 witness: a one-document batch where the document emits its source
line has exactly one trailing newline. -/
theorem goes_C1_witness :
    (bulkBody [⟨"index", .str "i", .str "1", .map [("a", .str "b")], "t"⟩]).map
      trailingNewlines = Except.ok 1 := by
  obtain ⟨s, hs⟩ : ∃ s,
      bulkBody [⟨"index", .str "i", .str "1", .map [("a", .str "b")], "t"⟩] = .ok s :=
    ⟨_, rfl⟩
  have h := goes_C1_amended
    [⟨"index", .str "i", .str "1", .map [("a", .str "b")], "t"⟩] _ s rfl hs
  rw [hs]
  rw [show Except.map trailingNewlines (Except.ok s) = Except.ok (trailingNewlines s) from rfl]
  rw [h.2.2.2 (by simp) (by rfl)]

/-- C1 counterexample: a single delete document (no source line) produces a
body with two trailing newlines, not exactly one. -/
theorem goes_C1_counterexample :
    (bulkBody [⟨"delete", .str "i", .str "1", .nil, "t"⟩]).map trailingNewlines =
      Except.ok 2 := by rfl

/-- C2 (amended): splitting a successfully built bulk body on `\n` always
yields exactly `2n + 1` segments for `n` documents — the unfilled slots
survive as empty segments, so omitted source lines never reduce the count —
with the final segment always empty; the number of emitted (non-empty) lines
is two for each document with non-empty Fields (whatever its BulkCommand)
and one for each document with empty or absent Fields. -/
theorem getLast?_cons_replicate (k : Nat) :
    (([] : List Char) :: List.replicate k []).getLast? = some [] := by
  induction k with
  | zero => rfl
  | succ k ih =>
    rw [List.replicate_succ, List.getLast?_cons_cons]
    exact ih

theorem goes_C2_amended (docs : List Document) (ls : List (List Char)) (s : List Char)
    (hl : bulkLines docs = .ok ls) (hb : bulkBody docs = .ok s) :
    (splitOnNl s).length = 2 * docs.length + 1
    ∧ (splitOnNl s).getLast? = some []
    ∧ ls.length = (docs.map docLineCount).sum := by
  obtain ⟨hsplit, hle, -⟩ := bulkBody_split docs ls s hl hb
  obtain ⟨hlen, -⟩ := bulkLines_ok docs ls hl
  have hk : 1 ≤ 2 * docs.length + 1 - ls.length := by omega
  refine ⟨?_, ?_, hlen⟩
  · rw [hsplit]
    simp
    omega
  · rw [hsplit]
    have : 2 * docs.length + 1 - ls.length ≠ 0 := by omega
    rw [List.getLast?_append_of_ne_nil _ (by simpa [List.replicate_eq_nil_iff] using this)]
    cases hkk : 2 * docs.length + 1 - ls.length with
    | zero => omega
    | succ k =>
      rw [List.replicate_succ]
      exact getLast?_cons_replicate k

/-- C2 witness: one document with non-empty Fields gives three segments
(2n + 1 with n = 1) and an empty final segment. -/
theorem goes_C2_witness :
    (bulkBody [⟨"index", .str "i", .str "1", .map [("a", .str "b")], "t"⟩]).map
      (fun s => ((splitOnNl s).length, (splitOnNl s).getLast?)) =
      Except.ok (3, some []) := by
  obtain ⟨s, hs⟩ : ∃ s,
      bulkBody [⟨"index", .str "i", .str "1", .map [("a", .str "b")], "t"⟩] = .ok s :=
    ⟨_, rfl⟩
  have h := goes_C2_amended
    [⟨"index", .str "i", .str "1", .map [("a", .str "b")], "t"⟩] _ s rfl hs
  rw [hs]
  rw [show Except.map (fun s => ((splitOnNl s).length, (splitOnNl s).getLast?)) (Except.ok s) =
    Except.ok ((splitOnNl s).length, (splitOnNl s).getLast?) from rfl]
  rw [h.1, h.2.1]
  rfl

/-- C2 counterexample: a single delete document omits its source line, yet
splitting still yields 3 = 2n + 1 segments (the claim said fewer exactly
when a source line is omitted); and a delete document with non-empty Fields
emits two lines (the claim said one line for every delete document). -/
theorem goes_C2_counterexample :
    (bulkBody [⟨"delete", .str "i", .str "1", .nil, "t"⟩]).map
        (fun s => (splitOnNl s).length) = Except.ok 3
    ∧ (bulkLines [⟨"delete", .str "i", .str "1", .map [("a", .str "b")], "t"⟩]).map
        List.length = Except.ok 2 := by
  exact ⟨by rfl, by rfl⟩

theorem doRequest_ok (st : Nat) (body : List Char) :
    doRequest (.ok st body) =
      (if 201 < st ∧ st < 400 then ([], st, some (.band body)) else (body, st, none)) := rfl

/-- C5: every status in the open band (201, 400) — i.e. 202-399 — is treated
as a transport-level error: the caller receives an empty Response carrying
only the Status, paired with an error whose message is the raw body, and no
body decoding is attempted (the Response equals the empty one, so Raw stays
none whatever the body bytes are). -/
theorem goes_C5 (method : String) (status : Nat) (body : List Char)
    (h1 : 201 < status) (h2 : status < 400) :
    DoModel method (.ok status body) =
      ({ Response.empty with Status := status }, some (.band body)) := by
  unfold DoModel
  rw [doRequest_ok, if_pos ⟨h1, h2⟩]

/-- C5 witness: a 302 redirect status with an arbitrary body. -/
theorem goes_C5_witness :
    DoModel "GET" (.ok 302 "oops".data) =
      ({ Response.empty with Status := 302 }, some (.band "oops".data)) :=
  goes_C5 "GET" 302 "oops".data (by omega) (by omega)

/-- C7: IndicesExist issues a HEAD request; Do never decodes a body for a
HEAD method (Raw stays none for any body bytes); status 200 yields
(true, nil) and status 404 yields (false, nil) with no error. -/
theorem goes_C7 (indexes : List String) :
    (IndicesExistRequest indexes).Method = "HEAD"
    ∧ (∀ body, IndicesExistModel indexes (.ok 200 body) = (true, none))
    ∧ (∀ body, IndicesExistModel indexes (.ok 404 body) = (false, none))
    ∧ (∀ body, (DoModel "HEAD" (.ok 200 body)).1.Raw = none)
    ∧ (∀ body, (DoModel "HEAD" (.ok 404 body)).1.Raw = none) := by
  refine ⟨rfl, ?_, ?_, ?_, ?_⟩
  · intro body
    unfold IndicesExistModel IndicesExistRequest DoModel
    rw [doRequest_ok, if_neg (by omega : ¬(201 < 200 ∧ 200 < 400))]
    rfl
  · intro body
    unfold IndicesExistModel IndicesExistRequest DoModel
    rw [doRequest_ok, if_neg (by omega : ¬(201 < 404 ∧ 404 < 400))]
    rfl
  · intro body
    unfold DoModel
    rw [doRequest_ok, if_neg (by omega : ¬(201 < 200 ∧ 200 < 400))]
    rfl
  · intro body
    unfold DoModel
    rw [doRequest_ok, if_neg (by omega : ¬(201 < 404 ∧ 404 < 400))]
    rfl

theorem foldl_append_map {α β : Type} (f : α → β) (l : List α) (init : List β) :
    l.foldl (fun acc x => acc ++ [f x]) init = init ++ l.map f := by
  induction l generalizing init with
  | nil => simp
  | cons x xs ih =>
    simp only [List.foldl_cons, List.map_cons]
    rw [ih]
    simp

/-- C10: the alias command's actions sequence built by modifyAlias has
`n + 1` elements for `n` indexes: one leading nil entry (the slice is
created with initial length 1) followed by one add/remove entry per index in
order; AddAlias and RemoveAlias are modifyAlias with actions "add" and
"remove". -/
theorem goes_C10 (action als : String) (indexes : List String) :
    modifyAliasActions action als indexes =
      none :: indexes.map (fun index =>
        some [(action, Json.obj [("index", Json.str index), ("alias", Json.str als)])])
    ∧ (modifyAliasActions action als indexes).length = indexes.length + 1
    ∧ (modifyAliasActions action als indexes).head? = some none
    ∧ AddAliasActions als indexes = modifyAliasActions "add" als indexes
    ∧ RemoveAliasActions als indexes = modifyAliasActions "remove" als indexes := by
  have hmain : modifyAliasActions action als indexes =
      none :: indexes.map (fun index =>
        some [(action, Json.obj [("index", Json.str index), ("alias", Json.str als)])]) := by
    unfold modifyAliasActions
    rw [foldl_append_map]
    rfl
  refine ⟨hmain, ?_, ?_, rfl, rfl⟩
  · rw [hmain]
    simp
  · rw [hmain]
    rfl

theorem unifyError_str (s : String) : unifyError (Json.str s).serialize = s.data := by
  rw [show (Json.str s).serialize = quoteChar :: (escChars s.data ++ [quoteChar]) from rfl]
  simp only [unifyError, if_true]
  rw [show (quoteChar :: (escChars s.data ++ [quoteChar])) = serializeString s from rfl,
    unmarshal_serializeString]

theorem unifyError_not_quote (l : List Char) (h : l.head? ≠ some quoteChar) :
    unifyError l = l := by
  cases l with
  | nil => rfl
  | cons c t =>
    have hcq : ¬ c = quoteChar := fun hc => h (by rw [List.head?_cons, hc])
    simp only [unifyError]
    rw [if_neg hcq]

/-- Evaluation of Do on a transport success outside the error band, for a
non-HEAD method, when the body parses and the typed fields decode. -/
theorem DoModel_decoded (method : String) (status : Nat) (body : List Char)
    (fs : List (String × Json)) (errs : Bool)
    (items : List (List (String × BulkItem)))
    (hm : ¬ method = "HEAD")
    (hband : ¬(201 < status ∧ status < 400))
    (hp : parseJson body = some (.obj fs))
    (hd : decodeTyped fs = some (errs, items)) :
    DoModel method (.ok status body) =
      ({ Status := status, RawError := [], Error := unifyError (rawErrorBytes fs),
         Raw := some (.obj fs), Errors := errs, Items := items },
       if unifyError (rawErrorBytes fs) = [] then none
       else some (.search (unifyError (rawErrorBytes fs)) status)) := by
  unfold DoModel
  rw [doRequest_ok, if_neg hband]
  simp only [if_neg hm, hp, hd]
  by_cases hE : unifyError (rawErrorBytes fs) = []
  · rw [if_pos hE, if_pos hE]
  · rw [if_neg hE, if_neg hE]

/-- C3: for every decoded response body (non-HEAD method, transport success
outside the error band, body parsing to an object whose typed fields
decode), the unified Error string is the JSON-decoded string literal when
the raw error payload's first byte is a double quote (which happens exactly
when the error field is a JSON string), and the raw bytes' string form
otherwise; whenever the unified Error is non-empty the result carries a
SearchError built from that message and the HTTP status, alongside the
still-populated Response. -/
theorem goes_C3 (method : String) (status : Nat) (body : List Char)
    (fs : List (String × Json)) (errs : Bool)
    (items : List (List (String × BulkItem)))
    (resp : Response) (err : Option GoError)
    (hm : ¬ method = "HEAD")
    (hband : ¬(201 < status ∧ status < 400))
    (hp : parseJson body = some (.obj fs))
    (hd : decodeTyped fs = some (errs, items))
    (hout : DoModel method (.ok status body) = (resp, err)) :
    (∀ s, goLookup fs "error" = some (.str s) →
        (rawErrorBytes fs).head? = some quoteChar ∧ resp.Error = s.data)
    ∧ (∀ v, goLookup fs "error" = some v → (∀ s, v ≠ .str s) →
        (rawErrorBytes fs).head? ≠ some quoteChar ∧ resp.Error = v.serialize)
    ∧ (goLookup fs "error" = none → resp.Error = [])
    ∧ (resp.Error ≠ [] →
        err = some (.search resp.Error status) ∧ resp.Raw = some (.obj fs))
    ∧ resp.Status = status := by
  rw [DoModel_decoded method status body fs errs items hm hband hp hd] at hout
  have hpair := Prod.mk.injEq _ _ _ _ |>.mp hout
  have hresp := hpair.1.symm
  have herr2 := hpair.2.symm
  refine ⟨?_, ?_, ?_, ?_, by rw [hresp]⟩
  · intro s hlk
    have hraw : rawErrorBytes fs = (Json.str s).serialize := by
      unfold rawErrorBytes
      rw [hlk]
    constructor
    · rw [hraw, show (Json.str s).serialize = quoteChar :: (escChars s.data ++ [quoteChar]) from rfl,
        List.head?_cons]
    · rw [hresp]
      show unifyError (rawErrorBytes fs) = s.data
      rw [hraw, unifyError_str]
  · intro v hlk hv
    have hraw : rawErrorBytes fs = v.serialize := by
      unfold rawErrorBytes
      rw [hlk]
    obtain ⟨c, t, hct, hcq⟩ := serialize_head_ne_quote v hv
    have hhead : (rawErrorBytes fs).head? ≠ some quoteChar := by
      rw [hraw, hct, List.head?_cons]
      intro hcon
      exact hcq (Option.some_inj.mp hcon)
    refine ⟨hhead, ?_⟩
    rw [hresp]
    show unifyError (rawErrorBytes fs) = v.serialize
    rw [← hraw]
    exact unifyError_not_quote _ hhead
  · intro hlk
    have hraw : rawErrorBytes fs = [] := by
      unfold rawErrorBytes
      rw [hlk]
    rw [hresp]
    show unifyError (rawErrorBytes fs) = []
    rw [hraw]
    rfl
  · intro hne
    have hE : ¬ unifyError (rawErrorBytes fs) = [] := by
      rw [hresp] at hne
      exact hne
    rw [herr2, if_neg hE, hresp]
    exact ⟨rfl, rfl⟩

/-- C3 witness: the body made of the bytes of the object with error field
"boom" at status 400 yields Error "boom" and a SearchError with status
400. -/
theorem goes_C3_witness :
    (DoModel "POST" (.ok 400 (Json.obj [("error", Json.str "boom")]).serialize)).1.Error
        = "boom".data
    ∧ (DoModel "POST" (.ok 400 (Json.obj [("error", Json.str "boom")]).serialize)).2
        = some (.search "boom".data 400) := by
  have h := goes_C3 "POST" 400 ((Json.obj [("error", Json.str "boom")]).serialize)
    [("error", Json.str "boom")] false [] _ _
    (by simp) (by omega) (by rfl) (by rfl) rfl
  obtain ⟨ha, -, -, hd, -⟩ := h
  obtain ⟨-, hE⟩ := ha "boom" (by rfl)
  obtain ⟨h1, -⟩ := hd (by rw [hE]; simp)
  rw [hE] at h1
  exact ⟨hE, h1⟩

/-- C4: whenever the decoded bulk response has the top-level Errors flag set
(and the transport ran without error, whatever the HTTP status), BulkSend
returns a non-nil error: the SearchError carrying the first non-empty
per-item error message and that item's status when one exists, or the
fallback unknown-error SearchError otherwise. -/
theorem goes_C4 (docs : List Document) (t : Transport) (b : List Char)
    (resp : Response)
    (hb : bulkBody docs = .ok b)
    (hdo : DoModel "POST" t = (resp, none))
    (herr : resp.Errors = true) :
    (BulkSendModel docs t).2 ≠ none
    ∧ (∀ msg st, firstItemError resp.Items = some (msg, st) →
        BulkSendModel docs t = (resp, some (.search msg st)))
    ∧ (firstItemError resp.Items = none →
        BulkSendModel docs t = (resp, some (.search unknownBulkMsg 0))) := by
  have hbs : BulkSendModel docs t =
      (match firstItemError resp.Items with
       | some (msg, st) => (resp, some (.search msg st))
       | none => (resp, some (.search unknownBulkMsg 0))) := by
    unfold BulkSendModel
    rw [hb, hdo]
    simp only [if_pos herr]
  cases hfi : firstItemError resp.Items with
  | some r =>
    obtain ⟨msg, st⟩ := r
    rw [hfi] at hbs
    refine ⟨by rw [hbs]; simp, ?_, ?_⟩
    · intro msg2 st2 hsome
      obtain ⟨rfl, rfl⟩ := Prod.mk.injEq _ _ _ _ |>.mp (Option.some_inj.mp hsome)
      exact hbs
    · intro hnone
      exact Option.noConfusion hnone
  | none =>
    rw [hfi] at hbs
    refine ⟨by rw [hbs]; simp, ?_, fun _ => hbs⟩
    intro msg st hsome
    exact Option.noConfusion hsome

/-- C4 witness: the bulk response with errors true and one item of status
409 and error message conflict, arriving with HTTP status 200, produces a
SearchError with message conflict and status 409. -/
theorem goes_C4_witness :
    (BulkSendModel [] (.ok 200 (Json.obj [("errors", Json.bool true),
        ("items", Json.arr [Json.obj [("index",
          Json.obj [("status", Json.num 409), ("error", Json.str "conflict")])]])]).serialize)).2
      = some (.search "conflict".data 409) := by
  have h := goes_C4 [] (.ok 200 (Json.obj [("errors", Json.bool true),
      ("items", Json.arr [Json.obj [("index",
        Json.obj [("status", Json.num 409), ("error", Json.str "conflict")])]])]).serialize)
    _ _ rfl rfl (by rfl)
  have h2 := h.2.1 "conflict".data 409 (by rfl)
  rw [show (BulkSendModel [] (.ok 200 (Json.obj [("errors", Json.bool true),
      ("items", Json.arr [Json.obj [("index",
        Json.obj [("status", Json.num 409), ("error", Json.str "conflict")])]])]).serialize)).2
    = (Prod.snd (BulkSendModel [] (.ok 200 (Json.obj [("errors", Json.bool true),
      ("items", Json.arr [Json.obj [("index",
        Json.obj [("status", Json.num 409), ("error", Json.str "conflict")])]])]).serialize))) from rfl]
  rw [h2]

theorem fieldsOther_error (d : Document) (h : d.Fields = FieldsValue.other) :
    ∃ e, bulkDocLines d = .error e := by
  unfold bulkDocLines
  cases ha : bulkAction d with
  | error e => exact ⟨e, by simp only [ha, except_bind_error]⟩
  | ok a =>
    refine ⟨"Document fields not in struct or map format", ?_⟩
    simp only [ha, except_bind_ok, h]

theorem bulkLines_error_mem (docs : List Document)
    (h : ∃ d ∈ docs, ∃ e, bulkDocLines d = .error e) :
    ∃ e, bulkLines docs = .error e := by
  induction docs with
  | nil => simp at h
  | cons d0 ds ih =>
    cases hd0 : bulkDocLines d0 with
    | error e => exact ⟨e, by simp only [bulkLines, hd0, except_bind_error]⟩
    | ok l =>
      obtain ⟨d, hmem, e, hde⟩ := h
      rcases List.mem_cons.mp hmem with rfl | hmem2
      · rw [hd0] at hde
        exact Except.noConfusion hde
      · obtain ⟨e2, he2⟩ := ih ⟨d, hmem2, e, hde⟩
        refine ⟨e2, ?_⟩
        simp only [bulkLines, hd0, except_bind_ok, he2, except_bind_error]

theorem bulkLines_append_error (pre : List Document) (d : Document)
    (post : List Document) (ls : List (List Char)) (e : String)
    (hpre : bulkLines pre = .ok ls) (hd : bulkDocLines d = .error e) :
    bulkLines (pre ++ d :: post) = .error e := by
  induction pre generalizing ls with
  | nil => simp only [List.nil_append, bulkLines, hd, except_bind_error]
  | cons p pre2 ih =>
    simp only [bulkLines] at hpre
    cases hp : bulkDocLines p with
    | error e2 =>
      rw [hp] at hpre
      simp only [except_bind_error] at hpre
      exact Except.noConfusion hpre
    | ok l =>
      rw [hp] at hpre
      simp only [except_bind_ok] at hpre
      cases hrest : bulkLines pre2 with
      | error e2 =>
        rw [hrest] at hpre
        simp only [except_bind_error] at hpre
        exact Except.noConfusion hpre
      | ok rest =>
        simp only [List.cons_append, bulkLines, hp, except_bind_ok, List.append_eq]
        rw [ih rest hrest]
        simp only [except_bind_error]

theorem bulkBody_error (docs : List Document) (e : String)
    (h : bulkLines docs = .error e) : bulkBody docs = .error e := by
  unfold bulkBody
  simp only [h, except_bind_error]

/-- C6: a Document whose Fields is neither a string-keyed map nor a (pointer
to) struct makes the whole bulk build fail; any per-document failure
(serialization failure on an action or source line, or the Fields kind
error) aborts the build immediately with that error even when earlier
documents encoded successfully; and a failed build makes BulkSend return the
error with an empty Response for every possible transport behaviour — no
network round trip can influence the outcome, and no partial encoding
survives. -/
theorem goes_C6 (docs : List Document) :
    ((∃ d ∈ docs, d.Fields = FieldsValue.other) → ∃ e, bulkBody docs = .error e)
    ∧ (∀ (pre : List Document) (d : Document) (post : List Document)
          (ls : List (List Char)) (e : String),
        bulkLines pre = .ok ls → bulkDocLines d = .error e →
        bulkBody (pre ++ d :: post) = .error e)
    ∧ (∀ e, bulkBody docs = .error e →
        ∀ t, BulkSendModel docs t = (Response.empty, some (.construction e))) := by
  refine ⟨?_, ?_, ?_⟩
  · intro ⟨d, hmem, hother⟩
    obtain ⟨e, he⟩ := bulkLines_error_mem docs ⟨d, hmem, fieldsOther_error d hother⟩
    exact ⟨e, bulkBody_error docs e he⟩
  · intro pre d post ls e hpre hd
    exact bulkBody_error _ e (bulkLines_append_error pre d post ls e hpre hd)
  · intro e he t
    unfold BulkSendModel
    rw [he]

/-- C6 witness: a document whose Fields is an unsupported shape fails the
build before any transport activity, for a delete document batch that
already encoded one good document. -/
theorem goes_C6_witness :
    BulkSendModel [⟨"index", .str "i", .str "1", .nil, "t"⟩,
        ⟨"index", .str "i", .str "2", FieldsValue.other, "t"⟩] .connFailure
      = (Response.empty,
         some (.construction "Document fields not in struct or map format")) := by
  have h := (goes_C6 [⟨"index", .str "i", .str "1", .nil, "t"⟩,
      ⟨"index", .str "i", .str "2", FieldsValue.other, "t"⟩]).2.2
    "Document fields not in struct or map format" (by rfl) Transport.connFailure
  exact h

theorem bucketsOf_map_obj (kvss : List (List (String × Json))) :
    bucketsOf (kvss.map Json.obj) = .ok kvss := by
  induction kvss with
  | nil => rfl
  | cons kvs rest ih =>
    simp only [List.map_cons, bucketsOf, ih, except_bind_ok]

/-- C8 (amended): Buckets returns the empty sequence only when the key
buckets is absent; a present value must be a sequence of maps — Buckets then
returns those maps in order — and a present value of any other shape is a
run-time cast panic, not an empty result.  Likewise Aggregation(name)
returns the nested map when present, the empty map when absent, and panics
on a present non-map value. -/
theorem goes_C8_amended :
    (∀ a : Aggregation, goLookup a "buckets" = none → a.Buckets = .ok [])
    ∧ (∀ (a : Aggregation) (kvss : List (List (String × Json))),
        goLookup a "buckets" = some (.arr (kvss.map Json.obj)) →
        a.Buckets = .ok kvss)
    ∧ (∀ (a : Aggregation) (v : Json), goLookup a "buckets" = some v →
        (∀ xs, v ≠ .arr xs) → ∃ e, a.Buckets = .error e)
    ∧ (∀ (b : Bucket) (name : String), goLookup b name = none →
        b.Aggregation name = .ok [])
    ∧ (∀ (b : Bucket) (name : String) (kvs : List (String × Json)),
        goLookup b name = some (.obj kvs) → b.Aggregation name = .ok kvs)
    ∧ (∀ (b : Bucket) (name : String) (v : Json), goLookup b name = some v →
        (∀ kvs, v ≠ .obj kvs) → ∃ e, b.Aggregation name = .error e) := by
  refine ⟨?_, ?_, ?_, ?_, ?_, ?_⟩
  · intro a hlk
    unfold Aggregation.Buckets
    rw [hlk]
  · intro a kvss hlk
    unfold Aggregation.Buckets
    rw [hlk]
    exact bucketsOf_map_obj kvss
  · intro a v hlk hv
    unfold Aggregation.Buckets
    rw [hlk]
    cases v with
    | arr xs => exact absurd rfl (hv xs)
    | null => exact ⟨_, rfl⟩
    | bool b => exact ⟨_, rfl⟩
    | num n => exact ⟨_, rfl⟩
    | str s => exact ⟨_, rfl⟩
    | obj fs => exact ⟨_, rfl⟩
  · intro b name hlk
    unfold Bucket.Aggregation
    rw [hlk]
  · intro b name kvs hlk
    unfold Bucket.Aggregation
    rw [hlk]
  · intro b name v hlk hv
    unfold Bucket.Aggregation
    rw [hlk]
    cases v with
    | obj kvs => exact absurd rfl (hv kvs)
    | null => exact ⟨_, rfl⟩
    | bool b2 => exact ⟨_, rfl⟩
    | num n => exact ⟨_, rfl⟩
    | str s => exact ⟨_, rfl⟩
    | arr xs => exact ⟨_, rfl⟩

/-- C8 witness: a well-shaped buckets sequence is returned in order; an
absent key gives the empty sequence; an absent aggregation name gives the
empty map and a present one gives the nested map. -/
theorem goes_C8_witness :
    Aggregation.Buckets [("buckets", Json.arr [Json.obj [("key", Json.str "k")]])]
        = .ok [[("key", Json.str "k")]]
    ∧ Aggregation.Buckets [("other", Json.null)] = .ok []
    ∧ Bucket.Aggregation [("sub", Json.obj [("y", Json.null)])] "sub"
        = .ok [("y", Json.null)]
    ∧ Bucket.Aggregation [("sub", Json.obj [("y", Json.null)])] "missing" = .ok [] := by
  refine ⟨?_, ?_, ?_, ?_⟩
  · exact goes_C8_amended.2.1 _ [[("key", Json.str "k")]] (by rfl)
  · exact goes_C8_amended.1 _ (by rfl)
  · exact goes_C8_amended.2.2.2.2.1 _ "sub" _ (by rfl)
  · exact goes_C8_amended.2.2.2.1 _ "missing" (by rfl)

/-- C8 counterexample: a buckets key holding a number (wrong shape) is a
cast failure, not the claimed empty-sequence-without-error result. -/
theorem goes_C8_counterexample :
    Aggregation.Buckets [("buckets", Json.num 5)]
      = .error "interface conversion: buckets value is not a slice" := by rfl

/-- C9 (amended): Delete requires both Index and ID to be strings — an
absent (nil) or non-string Index or ID is a cast failure before any network
round trip.  Update requires only Index to be a string: an absent (nil) ID
is tolerated and the request is built without an ID, while a present
non-string ID is a cast failure.  Either construction failure makes the
whole operation fail identically for every transport behaviour. -/
theorem goes_C9_amended (d : Document) (q : GoValue) :
    (d.Index.isStr = false →
        (∃ e, DeleteRequest d = .error e) ∧ (∃ e, UpdateRequest d q = .error e))
    ∧ (d.ID.isStr = false → ∃ e, DeleteRequest d = .error e)
    ∧ (∀ s, d.Index = .str s → d.ID = .nil →
        UpdateRequest d q = .ok
          { Query := some q, IndexList := [s],
            TypeList := [d.DocType], Method := "POST", API := some "_update" })
    ∧ (∀ s, d.Index = .str s → d.ID ≠ .nil → d.ID.isStr = false →
        ∃ e, UpdateRequest d q = .error e)
    ∧ (∀ e, DeleteRequest d = .error e → ∀ t, DeleteOp d t = .error e)
    ∧ (∀ e, UpdateRequest d q = .error e → ∀ t, UpdateOp d q t = .error e) := by
  have hidx_err : d.Index.isStr = false → ∃ e, d.Index.assertString = .error e := by
    intro h
    cases hx : d.Index with
    | str s => rw [hx] at h; simp [GoValue.isStr] at h
    | nil => exact ⟨_, rfl⟩
    | json j => exact ⟨_, rfl⟩
    | unserializable => exact ⟨_, rfl⟩
  have hid_err : d.ID.isStr = false → ∃ e, d.ID.assertString = .error e := by
    intro h
    cases hx : d.ID with
    | str s => rw [hx] at h; simp [GoValue.isStr] at h
    | nil => exact ⟨_, rfl⟩
    | json j => exact ⟨_, rfl⟩
    | unserializable => exact ⟨_, rfl⟩
  refine ⟨?_, ?_, ?_, ?_, ?_, ?_⟩
  · intro h
    obtain ⟨e, he⟩ := hidx_err h
    constructor
    · exact ⟨e, by unfold DeleteRequest; simp only [he, except_bind_error]⟩
    · exact ⟨e, by unfold UpdateRequest; simp only [he, except_bind_error]⟩
  · intro h
    obtain ⟨e, he⟩ := hid_err h
    cases hix : d.Index.assertString with
    | error e2 =>
      exact ⟨e2, by unfold DeleteRequest; simp only [hix, except_bind_error]⟩
    | ok idx =>
      exact ⟨e, by unfold DeleteRequest; simp only [hix, except_bind_ok, he, except_bind_error]⟩
  · intro s hs hnil
    unfold UpdateRequest
    rw [hs, hnil]
    simp only [GoValue.assertString, except_bind_ok]
  · intro s hs hnnil hnstr
    obtain ⟨e, he⟩ := hid_err hnstr
    refine ⟨e, ?_⟩
    unfold UpdateRequest
    rw [hs]
    simp only [GoValue.assertString, except_bind_ok]
    cases hid : d.ID with
    | nil => exact absurd hid hnnil
    | str s2 => rw [hid] at hnstr; simp [GoValue.isStr] at hnstr
    | json j =>
      rw [hid] at he
      rw [show (GoValue.json j).assertString
          = Except.error "interface conversion: interface is not string" from rfl] at he
      obtain rfl := Except.error.injEq _ _ |>.mp he
      rfl
    | unserializable =>
      rw [hid] at he
      rw [show GoValue.unserializable.assertString
          = Except.error "interface conversion: interface is not string" from rfl] at he
      obtain rfl := Except.error.injEq _ _ |>.mp he
      rfl
  · intro e he t
    unfold DeleteOp
    simp only [he, except_bind_error]
  · intro e he t
    unfold UpdateOp
    simp only [he, except_bind_error]

/-- C9 witness: Delete with a nil ID is a cast failure, and Update with a
non-string Index is a cast failure too. -/
theorem goes_C9_witness :
    (∃ e, DeleteRequest ⟨"", .str "i", .nil, .nil, "t"⟩ = .error e)
    ∧ (∃ e, UpdateRequest ⟨"", .json .null, .str "1", .nil, "t"⟩ .nil = .error e) := by
  constructor
  · exact (goes_C9_amended ⟨"", .str "i", .nil, .nil, "t"⟩ .nil).2.1 (by rfl)
  · exact ((goes_C9_amended ⟨"", .json .null, .str "1", .nil, "t"⟩ .nil).1 (by rfl)).2

/-- C9 counterexample: Update with an absent (nil) ID does not fail with a
type/cast error — the request is built successfully with no ID, contrary to
the claim that a non-absent ID is required for Update. -/
theorem goes_C9_counterexample :
    UpdateRequest ⟨"", GoValue.str "i", GoValue.nil, FieldsValue.nil, "t"⟩ GoValue.nil
      = .ok
        { Query := some GoValue.nil, IndexList := ["i"], TypeList := ["t"],
          Method := "POST", API := some "_update" } := by rfl

end Goes
